import Mathlib

/-!
Verification development for the unsupervised anomaly-detection engine
(`backend/unsupervised_engine.py`).

The engine's own code (gating, feature selection, matrix building, result
labeling, the top-level exception barrier) is embedded directly from the
source.  The statistical library stages it delegates to (`SimpleImputer`,
`StandardScaler`, the isolation forest) are not part of the repository's
source; they are modelled from the specification (sections 4.4 and 4.5),
and the forest's per-row raw scores are kept as an explicit function
parameter `scoreFn` so that theorems quantify over every possible scoring.

Cells are `Option String` (a raw string or null), per the engine's input
contract.  Rows are insertion-ordered association lists, mirroring Python
dicts.  Python floats are modelled exactly: finite values as rationals,
plus signed infinities and nan, which `float(str)` can produce.
-/

/-- Result of a successful Python `float(str)` call: a finite value,
a signed infinity, or nan. -/
inductive PyFloat where
  | finite (q : ℚ)
  | inf (neg : Bool)
  | nan
deriving DecidableEq, Repr

/-- A row: an insertion-ordered mapping from column name to a raw cell
(string or null), as produced by the parsing collaborator. -/
abbrev Row := List (String × Option String)

/-- The source's `str(value).replace('$', '').replace(',', '').replace(' ', '')`:
every occurrence of the three characters is removed. -/
def pystrip (s : String) : String :=
  String.mk (s.data.filter (fun c => c != '$' && c != ',' && c != ' '))

/-- Leading and trailing whitespace removal performed by Python `float(str)`. -/
def trimWs (l : List Char) : List Char :=
  ((l.dropWhile Char.isWhitespace).reverse.dropWhile Char.isWhitespace).reverse

/-- Python numeric-literal underscores: every `_` must sit between two
digits; valid underscores are deleted, anything else fails the parse.
The first argument is the previous character. -/
def remUnd : Option Char → List Char → Option (List Char)
  | _, [] => some []
  | prev, c :: t =>
    if c = '_' then
      match prev, t with
      | some p, n :: _ => if p.isDigit && n.isDigit then remUnd (some '_') t else none
      | _, _ => none
    else
      (remUnd (some c) t).map (fun r => c :: r)

/-- Value of a digit string. -/
def digitsVal (l : List Char) : ℕ :=
  l.foldl (fun a c => 10 * a + (c.toNat - '0'.toNat)) 0

/-- Mantissa of a decimal literal: digits with at most one point and at
least one digit overall (`"1"`, `"1."`, `".5"`, `"1.5"`). -/
def parseMantissa (l : List Char) : Option ℚ :=
  let ip := l.takeWhile (fun c => c != '.')
  let rest := l.dropWhile (fun c => c != '.')
  let fp : Option (List Char) :=
    match rest with
    | [] => some []
    | _ :: t => if t.any (fun c => c == '.') then none else some t
  match fp with
  | none => none
  | some fr =>
    if ip.all Char.isDigit && fr.all Char.isDigit && (!ip.isEmpty || !fr.isEmpty) then
      some ((digitsVal ip : ℚ) + (digitsVal fr : ℚ) / (10 : ℚ) ^ fr.length)
    else none

/-- Exponent part after `e`: optional sign then at least one digit. -/
def parseExp (l : List Char) : Option ℤ :=
  let sd : ℤ × List Char :=
    match l with
    | '+' :: t => (1, t)
    | '-' :: t => (-1, t)
    | t => (1, t)
  if !sd.2.isEmpty && sd.2.all Char.isDigit then some (sd.1 * (digitsVal sd.2 : ℤ))
  else none

/-- Unsigned decimal literal with optional exponent (input already
lower-cased and underscore-cleaned). -/
def parseNumber (l : List Char) : Option ℚ :=
  let m := l.takeWhile (fun c => c != 'e')
  let rest := l.dropWhile (fun c => c != 'e')
  match rest with
  | [] => parseMantissa m
  | _ :: t =>
    match parseMantissa m, parseExp t with
    | some q, some e => some (q * (10 : ℚ) ^ e)
    | _, _ => none

/-- Python `float(str)`: strip surrounding whitespace, optional sign, then
either `inf`/`infinity`/`nan` (case-insensitive) or a decimal literal. -/
def parsePyFloat (s : String) : Option PyFloat :=
  let l := trimWs s.data
  let sl : Bool × List Char :=
    match l with
    | '+' :: t => (false, t)
    | '-' :: t => (true, t)
    | t => (false, t)
  let lw := sl.2.map Char.toLower
  if lw = "inf".data || lw = "infinity".data then some (.inf sl.1)
  else if lw = "nan".data then some .nan
  else
    match remUnd none lw with
    | none => none
    | some l3 =>
      match parseNumber l3 with
      | none => none
      | some q => some (.finite (if sl.1 then -q else q))

/-- `_to_numeric` from the source: `None` stays missing, otherwise the
cell's string is stripped of `$`, `,`, spaces and given to `float`;
a parse failure yields missing. -/
def to_numeric (value : Option String) : Option PyFloat :=
  match value with
  | none => none
  | some s => parsePyFloat (pystrip s)

/-- `_is_numeric` from the source.  Its body duplicates `_to_numeric`'s
try/except, succeeding exactly when the conversion succeeds. -/
def is_numeric (value : Option String) : Bool :=
  (to_numeric value).isSome

/-- Reserved structural column names excluded from feature selection. -/
def reservedNames : List String := ["page", "table", "row_index", "id"]

/-- The sample scanned by feature selection: the first
`min(len(rows), 50)` rows. -/
def sampleRows (rows : List Row) : List Row :=
  rows.take (min rows.length 50)

/-- Membership in the selected feature set `numeric_fields`: some sampled
row holds the column with a numeric value and the lower-cased name is not
reserved. -/
def selectedFeature (rows : List Row) (k : String) : Bool :=
  (sampleRows rows).any fun row =>
    row.any fun kv =>
      decide (kv.1 = k) && is_numeric kv.2 && decide (kv.1.toLower ∉ reservedNames)

/-- One enumeration of the selected set, in first-encounter order.  The
source materializes `feature_names = list(numeric_fields)` in Python set
iteration order, which is unspecified (per-process hash salting), so the
pipeline below also takes the enumeration as an explicit argument. -/
def canonicalNames (rows : List Row) : List String :=
  ((sampleRows rows).flatMap fun row =>
    row.filterMap fun kv =>
      if is_numeric kv.2 && decide (kv.1.toLower ∉ reservedNames) then some kv.1
      else none).dedup

/-- Python `row.get(field)`: `None` both when the key is absent and when
its stored value is null. -/
def rowGet (row : Row) (field : String) : Option String :=
  (row.lookup field).join

/-- One matrix row: per feature the coerced value, `nan` marking missing. -/
def row_features (names : List String) (row : Row) : List PyFloat :=
  names.map fun f => (to_numeric (rowGet row f)).getD PyFloat.nan

/-- `has_data` flag of the matrix builder: at least one feature coerced. -/
def has_data (names : List String) (row : Row) : Bool :=
  names.any fun f => (to_numeric (rowGet row f)).isSome

/-- Matrix-building loop of `_extract_features`, carrying the original
index of the next row; rows with no data are dropped. -/
def extract_aux (names : List String) : ℕ → List Row → List (List PyFloat) × List ℕ
  | _, [] => ([], [])
  | i, r :: rs =>
    if has_data names r then
      (row_features names r :: (extract_aux names (i + 1) rs).1,
        i :: (extract_aux names (i + 1) rs).2)
    else extract_aux names (i + 1) rs

/-- `_extract_features`, with the set enumeration passed in: returns the
feature matrix and the original-row index of each matrix row.  An empty
enumeration short-circuits, as in the source. -/
def extract_features (names : List String) (rows : List Row) :
    List (List PyFloat) × List ℕ :=
  if names.isEmpty then ([], []) else extract_aux names 0 rows

/-- True on signed infinities. -/
def isInfF : PyFloat → Bool
  | .inf _ => true
  | _ => false

/-- Finite payload, `none` on nan and infinities. -/
def finiteQ : PyFloat → Option ℚ
  | .finite q => some q
  | _ => none

/-- Column `j` of the raw matrix (rows are total, default never used). -/
def colF (x : List (List PyFloat)) (j : ℕ) : List PyFloat :=
  x.map fun r => r.getD j PyFloat.nan

/-- Modelled from the spec (4.4): the mean imputation performed by the
`SimpleImputer` collaborator ignores missing cells; a fully missing
column gets mean 0. -/
def colMeanF (x : List (List PyFloat)) (j : ℕ) : ℚ :=
  let v := (colF x j).filterMap finiteQ
  if v.length = 0 then 0 else v.sum / v.length

/-- Modelled from the spec (4.4) and the library contract: input
validation rejects infinities with an error; nan cells are replaced by
their column's mean. -/
def impute (x : List (List PyFloat)) : Except String (List (List ℚ)) :=
  if x.any (fun r => r.any isInfF) then
    .error "Input contains infinity or a value too large"
  else
    .ok (x.map fun r => r.enum.map fun p =>
      match p.2 with
      | .finite q => q
      | _ => colMeanF x p.1)

/-- A standardized cell, represented exactly: the real value is
`centered / sqrt variance` when the variance is nonzero and `0` for a
constant column.  Kept symbolic so the development stays executable. -/
structure ScaledEntry where
  centered : ℚ
  variance : ℚ
deriving DecidableEq, Repr

/-- Column `j` of the imputed matrix. -/
def colQ (m : List (List ℚ)) (j : ℕ) : List ℚ :=
  m.map fun r => r.getD j 0

/-- Mean of a rational column (0 for an empty one). -/
def meanQ (l : List ℚ) : ℚ :=
  if l.length = 0 then 0 else l.sum / l.length

/-- Population variance of a rational column. -/
def varQ (l : List ℚ) : ℚ :=
  meanQ (l.map fun v => (v - meanQ l) ^ 2)

/-- Modelled from the spec (4.4): the `StandardScaler` collaborator
centers each column and divides by its population standard deviation,
leaving constant columns at 0. -/
def scale (m : List (List ℚ)) : List (List ScaledEntry) :=
  m.map fun r => r.enum.map fun p =>
    { centered := p.2 - meanQ (colQ m p.1), variance := varQ (colQ m p.1) }

/-- Square of the standardized value of a cell; comparing squares is
equivalent to comparing absolute standardized values. -/
def zsq (e : ScaledEntry) : ℚ :=
  e.centered ^ 2 / (if e.variance = 0 then 1 else e.variance)

/-- `np.argmax` over the absolute standardized values of one row: first
index attaining the maximum. -/
def argmaxZ (r : List ScaledEntry) : ℕ :=
  (r.enum.foldl
    (fun best p => if zsq p.2 > best.2 then (p.1, zsq p.2) else best)
    (0, zsq (r.headD { centered := 0, variance := 0 }))).1

/-- Python `round`: round half to even, as used by the spec's
contamination formula. -/
def roundHalfEven (q : ℚ) : ℤ :=
  if q - ⌊q⌋ < 1 / 2 then ⌊q⌋
  else if 1 / 2 < q - ⌊q⌋ then ⌊q⌋ + 1
  else if ⌊q⌋ % 2 = 0 then ⌊q⌋ else ⌊q⌋ + 1

/-- Modelled from the spec (4.5): number of rows flagged, i.e.
`round(contamination * n_rows)`, with a floor of 0 when
`contamination * n_rows < 1`. -/
def kOf (c : ℚ) (n : ℕ) : ℕ :=
  if c * n < 1 then 0 else (roundHalfEven (c * n)).toNat

/-- Ranking order on matrix-row indices: by decision score ascending
(most anomalous first), index as tie-break. -/
def idxLe (s : List ℚ) (i j : ℕ) : Prop :=
  s.getD i 0 < s.getD j 0 ∨ (s.getD i 0 = s.getD j 0 ∧ i ≤ j)

instance (s : List ℚ) (i j : ℕ) : Decidable (idxLe s i j) := by
  unfold idxLe; infer_instance

/-- Ordered insertion of an index into a ranked list. -/
def insertRanked (s : List ℚ) (i : ℕ) : List ℕ → List ℕ
  | [] => [i]
  | j :: t => if idxLe s i j then i :: j :: t else j :: insertRanked s i t

/-- Insertion sort of matrix-row indices by score rank. -/
def sortIdx (s : List ℚ) (l : List ℕ) : List ℕ :=
  l.foldr (insertRanked s) []

/-- Modelled from the spec (4.5): indices of the rows marked as outliers,
the `kOf` most anomalous ones. -/
def flaggedIdx (c : ℚ) (scores : List ℚ) (n : ℕ) : List ℕ :=
  (sortIdx scores (List.range n)).take (kOf c n)

/-- The model's outlier predictions, one Boolean per matrix row. -/
def predictions (c : ℚ) (scores : List ℚ) (n : ℕ) : List Bool :=
  (List.range n).map fun i => decide (i ∈ flaggedIdx c scores n)

/-- Two-digit zero padding for the fractional part. -/
def natPad2 (n : ℕ) : String :=
  if n < 10 then "0" ++ toString n else toString n

/-- Python `f'{v:.2f}'` on a finite value. -/
def fmt2 (q : ℚ) : String :=
  let m := roundHalfEven (q * 100)
  let a := m.natAbs
  (if m < 0 then "-" else "") ++ toString (a / 100) ++ "." ++ natPad2 (a % 100)

/-- One anomaly record, flattened: the `evidence` mapping's entries are
the last four fields. -/
structure Anomaly where
  row_index : ℕ
  anomaly_type : String
  severity : String
  description : String
  raw_json : Row
  algorithm : String
  anomaly_score : ℚ
  key_feature : String
  feature_value : ℚ
  z_score_approx : ScaledEntry
deriving DecidableEq, Repr

/-- Engine configuration with the source's defaults. -/
structure EngineConfig where
  contamination : ℚ := 1 / 20
  min_samples : ℕ := 20
deriving DecidableEq, Repr

/-- The seed the source hardwires (`self.random_state = 42`); it is not
read from the configuration. -/
def random_state : ℕ := 42

/-- Record built for one flagged matrix row `i`, following the source's
loop body: original index via `row_indices`, severity from the score,
attribution via the most deviant standardized feature. -/
def mkAnomaly (rows : List Row) (names : List String) (ri : List ℕ)
    (xs : List (List ScaledEntry)) (xi : List (List ℚ)) (scores : List ℚ)
    (i : ℕ) : Anomaly :=
  let rowIdx := ri.getD i 0
  let score := scores.getD i 0
  let srow := xs.getD i []
  let mdi := argmaxZ srow
  let kf := names.getD mdi ""
  let kval := (xi.getD i []).getD mdi 0
  { row_index := rowIdx
    anomaly_type := "ml_outlier"
    severity := if score > -(1 / 10) then "medium" else "high"
    description := "Statistical outlier detected by ML model. Unusual " ++ kf ++ ": " ++ fmt2 kval
    raw_json := rows.getD rowIdx []
    algorithm := "isolation_forest"
    anomaly_score := score
    key_feature := kf
    feature_value := kval
    z_score_approx := srow.getD mdi { centered := 0, variance := 0 } }

/-- The source's result loop: over `enumerate(predictions)`, emit a
record for every flagged row, in matrix order. -/
def process_results (cfg : EngineConfig) (rows : List Row) (names : List String)
    (ri : List ℕ) (xs : List (List ScaledEntry)) (xi : List (List ℚ))
    (scores : List ℚ) : List Anomaly :=
  ((predictions cfg.contamination scores xs.length).enum).filterMap fun p =>
    if p.2 then some (mkAnomaly rows names ri xs xi scores p.1) else none

/-- Body of the `try` block of `detect_anomalies`: extraction, the
preprocessing and scoring stages (which may fail), then labeling.  The
final guard is the library contract that `decision_function` returns one
score per sample. -/
def pipeline_body (cfg : EngineConfig) (names : List String)
    (scoreFn : List (List ScaledEntry) → Except String (List ℚ))
    (rows : List Row) : Except String (List Anomaly) :=
  if (extract_features names rows).1.isEmpty then .ok []
  else
    match impute (extract_features names rows).1 with
    | .error e => .error e
    | .ok xi =>
      match scoreFn (scale xi) with
      | .error e => .error e
      | .ok scores =>
        if scores.length = (extract_features names rows).1.length then
          .ok (process_results cfg rows names (extract_features names rows).2
            (scale xi) xi scores)
        else .error "decision scores do not match the sample count"

/-- `detect_anomalies` with the set enumeration made explicit: the
minimum-sample gate sits outside the exception barrier; every internal
failure degrades to an empty result. -/
def detect_model (cfg : EngineConfig) (names : List String)
    (scoreFn : List (List ScaledEntry) → Except String (List ℚ))
    (rows : List Row) : List Anomaly :=
  if rows.isEmpty ∨ rows.length < cfg.min_samples then []
  else
    match pipeline_body cfg names scoreFn rows with
    | .ok anomalies => anomalies
    | .error _ => []

/-- `detect_anomalies` with the canonical enumeration of the selected
feature set. -/
def detect_anomalies (cfg : EngineConfig)
    (scoreFn : List (List ScaledEntry) → Except String (List ℚ))
    (rows : List Row) : List Anomaly :=
  detect_model cfg (canonicalNames rows) scoreFn rows

/-! Concrete instances used by witnesses and counterexamples. -/

/-- A small configuration: two-row minimum, contamination one half. -/
def cfgS : EngineConfig := { contamination := 1 / 2, min_samples := 2 }

/-- The default configuration (contamination 0.05, minimum 20 rows). -/
def cfgD : EngineConfig := {}

/-- A degenerate but legitimate scoring: every row equally anomalous. -/
def constScore : List (List ScaledEntry) → Except String (List ℚ) :=
  fun x => .ok (x.map fun _ => 0)

/-- Scoring by the sum of centered features (row 0 most anomalous on
`rowsA`-style data). -/
def sumScore : List (List ScaledEntry) → Except String (List ℚ) :=
  fun x => .ok (x.map fun r => (r.map ScaledEntry.centered).sum)

/-- Scoring that puts every row exactly at the severity boundary. -/
def boundaryScore : List (List ScaledEntry) → Except String (List ℚ) :=
  fun x => .ok (x.map fun _ => -(1 / 10))

/-- Two rows with one numeric column. -/
def rowsA : List Row := [[("a", some "1")], [("a", some "9")]]

/-- Two rows of which only the first parses: a one-row matrix. -/
def rowsB : List Row := [[("a", some "7")], [("a", some "x")]]

/-- Two rows with two numeric columns holding equal values. -/
def rowsAB : List Row :=
  [[("a", some "1"), ("b", some "1")], [("a", some "9"), ("b", some "9")]]

/-- Rows containing an `"inf"` cell, which the preprocessing stage
rejects. -/
def rowsInf : List Row := [[("a", some "inf")], [("a", some "1")]]

/-- Rows whose first row holds only the string `"nan"`. -/
def rowsNan : List Row := [[("v", some "nan")], [("v", some "2")]]

/-- A single row, below the default minimum-sample gate. -/
def rowsSmall : List Row := [[("a", some "1")]]

/-- Placeholder record for `headD`. -/
def anomaly0 : Anomaly :=
  { row_index := 0, anomaly_type := "", severity := "", description := ""
    raw_json := [], algorithm := "", anomaly_score := 0, key_feature := ""
    feature_value := 0, z_score_approx := { centered := 0, variance := 0 } }

/-- The output of the `rowsA` run used by several witnesses. -/
def outA : List Anomaly := detect_model cfgS ["a"] constScore rowsA

/-- The successful pipeline value of the `rowsA` run. -/
def bodyA : List Anomaly :=
  ((pipeline_body cfgS ["a"] constScore rowsA).toOption).getD []

/-! Helper lemmas about the ranking, the flagged set, and counting. -/

lemma insertRanked_perm (s : List ℚ) (i : ℕ) :
    ∀ l : List ℕ, (insertRanked s i l).Perm (i :: l)
  | [] => List.Perm.refl _
  | j :: t => by
    unfold insertRanked
    split
    · exact List.Perm.refl _
    · exact ((insertRanked_perm s i t).cons j).trans (List.Perm.swap i j t)

lemma sortIdx_perm (s : List ℚ) : ∀ l : List ℕ, (sortIdx s l).Perm l
  | [] => List.Perm.refl _
  | a :: t => by
    show (insertRanked s a (sortIdx s t)).Perm (a :: t)
    exact (insertRanked_perm s a (sortIdx s t)).trans ((sortIdx_perm s t).cons a)

lemma flaggedIdx_nodup (c : ℚ) (s : List ℚ) (n : ℕ) : (flaggedIdx c s n).Nodup :=
  List.Nodup.sublist (List.take_sublist _ _)
    (((sortIdx_perm s (List.range n)).nodup_iff).2 (List.nodup_range n))

lemma flaggedIdx_lt (c : ℚ) (s : List ℚ) (n : ℕ) : ∀ j ∈ flaggedIdx c s n, j < n := by
  intro j hj
  have h1 : j ∈ sortIdx s (List.range n) := List.mem_of_mem_take hj
  have h2 : j ∈ List.range n := ((sortIdx_perm s (List.range n)).mem_iff).1 h1
  exact List.mem_range.1 h2

lemma flaggedIdx_length (c : ℚ) (s : List ℚ) (n : ℕ) :
    (flaggedIdx c s n).length = min (kOf c n) n := by
  unfold flaggedIdx
  rw [List.length_take, (sortIdx_perm s (List.range n)).length_eq, List.length_range]

lemma length_filterMap_if (g : ℕ → Anomaly) :
    ∀ l : List (ℕ × Bool),
      (l.filterMap fun p => if p.2 then some (g p.1) else none).length =
        l.countP fun p => p.2
  | [] => rfl
  | p :: t => by
    rw [List.filterMap_cons, List.countP_cons]
    cases hb : p.2
    · simp [hb, length_filterMap_if g t]
    · simp [hb, length_filterMap_if g t]

lemma countP_enumFrom : ∀ (l : List Bool) (i : ℕ),
    ((List.enumFrom i l).countP fun p => p.2) = l.countP fun b => b
  | [], _ => rfl
  | b :: t, i => by
    show (((i, b) :: List.enumFrom (i + 1) t).countP fun p => p.2) = _
    rw [List.countP_cons, List.countP_cons, countP_enumFrom t (i + 1)]

lemma countP_range_mem {f : List ℕ} {n : ℕ} (hnd : f.Nodup) (hlt : ∀ j ∈ f, j < n) :
    ((List.range n).countP fun i => decide (i ∈ f)) = f.length := by
  rw [List.countP_eq_length_filter]
  have hperm : ((List.range n).filter fun i => decide (i ∈ f)).Perm f := by
    rw [List.perm_ext_iff_of_nodup ((List.nodup_range n).filter _) hnd]
    intro a
    simp only [List.mem_filter, decide_eq_true_eq, List.mem_range]
    exact ⟨fun h => h.2, fun h => ⟨hlt a h, h⟩⟩
  exact hperm.length_eq

lemma predictions_countP (c : ℚ) (s : List ℚ) (n : ℕ) :
    ((predictions c s n).countP fun b => b) = min (kOf c n) n := by
  unfold predictions
  rw [List.countP_map]
  have h : ((fun b => b) ∘ fun i => decide (i ∈ flaggedIdx c s n)) =
      fun i => decide (i ∈ flaggedIdx c s n) := rfl
  rw [h, countP_range_mem (flaggedIdx_nodup c s n) (flaggedIdx_lt c s n),
    flaggedIdx_length]

lemma process_results_length (cfg : EngineConfig) (rows : List Row)
    (names : List String) (ri : List ℕ) (xs : List (List ScaledEntry))
    (xi : List (List ℚ)) (scores : List ℚ) :
    (process_results cfg rows names ri xs xi scores).length =
      min (kOf cfg.contamination xs.length) xs.length := by
  unfold process_results
  rw [length_filterMap_if (mkAnomaly rows names ri xs xi scores)]
  rw [show List.enum (predictions cfg.contamination scores xs.length) =
      List.enumFrom 0 (predictions cfg.contamination scores xs.length) from rfl]
  rw [countP_enumFrom]
  have hn : (predictions cfg.contamination scores xs.length).length = xs.length := by
    unfold predictions
    rw [List.length_map, List.length_range]
  rw [predictions_countP]

/-! Helper lemmas about rounding and the flag count. -/

lemma roundHalfEven_le {q : ℚ} {n : ℕ} (h : q ≤ n) : roundHalfEven q ≤ n := by
  have hf : ⌊q⌋ ≤ (n : ℤ) := by
    have h1 : ⌊q⌋ ≤ ⌊(n : ℚ)⌋ := Int.floor_le_floor h
    rwa [Int.floor_natCast] at h1
  unfold roundHalfEven
  split
  · exact hf
  · rename_i h1
    split
    · rename_i h2
      have h4 : (⌊q⌋ : ℚ) < (n : ℚ) := by linarith
      have h5 : ⌊q⌋ < (n : ℤ) := by exact_mod_cast h4
      omega
    · rename_i h2
      split
      · exact hf
      · have hr : q - ⌊q⌋ = 1 / 2 := le_antisymm (le_of_not_lt h2) (le_of_not_lt h1)
        have h4 : (⌊q⌋ : ℚ) < (n : ℚ) := by linarith
        have h5 : ⌊q⌋ < (n : ℤ) := by exact_mod_cast h4
        omega

lemma kOf_le {c : ℚ} (h1 : c ≤ 1) (n : ℕ) : kOf c n ≤ n := by
  unfold kOf
  split
  · exact Nat.zero_le n
  · rw [Int.toNat_le]
    apply roundHalfEven_le
    calc c * n ≤ 1 * n := mul_le_mul_of_nonneg_right h1 (by positivity)
      _ = n := one_mul _

lemma kOf_zero (c : ℚ) : kOf c 0 = 0 := by
  unfold kOf
  rw [Nat.cast_zero, mul_zero, if_pos (by norm_num)]

lemma kOf_one_of_lt {c : ℚ} (h : c < 1) : kOf c 1 = 0 := by
  unfold kOf
  rw [Nat.cast_one, mul_one, if_pos h]

/-! Helper lemmas about the matrix builder. -/

lemma extract_aux_len (names : List String) :
    ∀ (i : ℕ) (rows : List Row),
      (extract_aux names i rows).1.length = (extract_aux names i rows).2.length
  | _, [] => rfl
  | i, r :: rs => by
    unfold extract_aux
    split
    · simp [extract_aux_len names (i + 1) rs]
    · exact extract_aux_len names (i + 1) rs

lemma extract_aux_ge (names : List String) :
    ∀ (i : ℕ) (rows : List Row) (j : ℕ), j ∈ (extract_aux names i rows).2 → i ≤ j
  | _, [], _ => by simp [extract_aux]
  | i, r :: rs, j => by
    unfold extract_aux
    split
    · intro h
      rcases List.mem_cons.1 h with h | h
      · omega
      · have := extract_aux_ge names (i + 1) rs j h
        omega
    · intro h
      have := extract_aux_ge names (i + 1) rs j h
      omega

lemma extract_aux_sorted (names : List String) :
    ∀ (i : ℕ) (rows : List Row), (extract_aux names i rows).2.Pairwise (· < ·)
  | _, [] => by simp [extract_aux]
  | i, r :: rs => by
    unfold extract_aux
    split
    · refine List.Pairwise.cons ?_ (extract_aux_sorted names (i + 1) rs)
      intro j hj
      have := extract_aux_ge names (i + 1) rs j hj
      omega
    · exact extract_aux_sorted names (i + 1) rs

lemma extract_features_len (names : List String) (rows : List Row) :
    (extract_features names rows).1.length = (extract_features names rows).2.length := by
  unfold extract_features
  split
  · rfl
  · exact extract_aux_len names 0 rows

lemma extract_features_sorted (names : List String) (rows : List Row) :
    (extract_features names rows).2.Pairwise (· < ·) := by
  unfold extract_features
  split
  · exact List.Pairwise.nil
  · exact extract_aux_sorted names 0 rows

lemma impute_length {x : List (List PyFloat)} {xi : List (List ℚ)}
    (h : impute x = .ok xi) : xi.length = x.length := by
  unfold impute at h
  split at h
  · simp at h
  · injection h with h
    rw [← h, List.length_map]

lemma scale_length (m : List (List ℚ)) : (scale m).length = m.length := by
  unfold scale
  rw [List.length_map]

/-! Helper lemmas about the result loop. -/

lemma snd_mem_of_mem_enumFrom {α : Type} :
    ∀ (l : List α) (i : ℕ) (p : ℕ × α), p ∈ List.enumFrom i l → p.2 ∈ l
  | [], _, _ => by simp
  | a :: t, i, p => by
    intro h
    have h2 : p ∈ (i, a) :: List.enumFrom (i + 1) t := h
    rcases List.mem_cons.1 h2 with h3 | h3
    · rw [h3]
      exact List.mem_cons_self a t
    · exact List.mem_cons_of_mem a (snd_mem_of_mem_enumFrom t (i + 1) p h3)

lemma fst_lt_of_mem_enum {α : Type} {l : List α} {p : ℕ × α}
    (h : p ∈ List.enum l) : p.1 < l.length := by
  have h1 : p.1 ∈ (List.enum l).map Prod.fst := List.mem_map_of_mem Prod.fst h
  rw [List.enum_map_fst] at h1
  exact List.mem_range.1 h1

lemma pairwise_enum_fst {α : Type} (l : List α) :
    (List.enum l).Pairwise fun p q => p.1 < q.1 := by
  have h := List.pairwise_lt_range l.length
  rw [← List.enum_map_fst (l := l), List.pairwise_map] at h
  exact h

lemma pairwise_filterMap_if {r : ℕ → ℕ → Prop} (g : ℕ → Anomaly)
    (s : Anomaly → Anomaly → Prop) (hg : ∀ i j, r i j → s (g i) (g j)) :
    ∀ l : List (ℕ × Bool), (l.Pairwise fun p q => r p.1 q.1) →
      (l.filterMap fun p => if p.2 then some (g p.1) else none).Pairwise s
  | [], _ => List.Pairwise.nil
  | p :: t, h => by
    rcases List.pairwise_cons.1 h with ⟨hhead, htail⟩
    cases hb : p.2
    · rw [List.filterMap_cons_none (by simp [hb])]
      exact pairwise_filterMap_if g s hg t htail
    · rw [List.filterMap_cons_some (b := g p.1) (by simp [hb])]
      refine List.Pairwise.cons ?_ (pairwise_filterMap_if g s hg t htail)
      intro a ha
      rcases List.mem_filterMap.1 ha with ⟨q, hq, hiq⟩
      rcases Bool.eq_false_or_eq_true q.2 with hq2 | hq2
      · simp only [hq2, if_true] at hiq
        have ha2 : g q.1 = a := by
          injection hiq
        rw [← ha2]
        exact hg p.1 q.1 (hhead q hq)
      · simp [hq2] at hiq

lemma getD_strict_mono {l : List ℕ} (h : l.Pairwise (· < ·)) {i j : ℕ}
    (hij : i < j) (hj : j < l.length) : l.getD i 0 < l.getD j 0 := by
  have hi : i < l.length := lt_trans hij hj
  rw [List.getD_eq_getElem l 0 hi, List.getD_eq_getElem l 0 hj]
  have h2 := List.pairwise_iff_get.1 h ⟨i, hi⟩ ⟨j, hj⟩ hij
  simpa using h2

lemma process_results_sorted (cfg : EngineConfig) (rows : List Row)
    (names : List String) (ri : List ℕ) (xs : List (List ScaledEntry))
    (xi : List (List ℚ)) (scores : List ℚ)
    (hri : ri.Pairwise (· < ·)) (hlen : xs.length ≤ ri.length) :
    (process_results cfg rows names ri xs xi scores).Pairwise
      fun a b => a.row_index < b.row_index := by
  unfold process_results
  have hplen : (predictions cfg.contamination scores xs.length).length = xs.length := by
    unfold predictions
    rw [List.length_map, List.length_range]
  apply pairwise_filterMap_if (r := fun i j => i < j ∧ j < ri.length)
  · intro i j hr
    show (mkAnomaly rows names ri xs xi scores i).row_index <
      (mkAnomaly rows names ri xs xi scores j).row_index
    unfold mkAnomaly
    exact getD_strict_mono hri hr.1 hr.2
  · apply List.Pairwise.imp_of_mem
      (R := fun (p q : ℕ × Bool) => p.1 < q.1) ?_ (pairwise_enum_fst _)
    intro p q _ hq hlt
    refine ⟨hlt, ?_⟩
    have := fst_lt_of_mem_enum hq
    omega

lemma process_severity {cfg : EngineConfig} {rows : List Row}
    {names : List String} {ri : List ℕ} {xs : List (List ScaledEntry)}
    {xi : List (List ℚ)} {scores : List ℚ} {a : Anomaly}
    (h : a ∈ process_results cfg rows names ri xs xi scores) :
    (a.severity = "medium" ∧ -(1 / 10) < a.anomaly_score) ∨
      (a.severity = "high" ∧ a.anomaly_score ≤ -(1 / 10)) := by
  unfold process_results at h
  rcases List.mem_filterMap.1 h with ⟨p, _, hip⟩
  rcases Bool.eq_false_or_eq_true p.2 with hp2 | hp2
  · simp only [hp2, if_true] at hip
    have ha : a = mkAnomaly rows names ri xs xi scores p.1 := by
      injection hip with h1
      exact h1.symm
    rw [ha]
    have hsev : (mkAnomaly rows names ri xs xi scores p.1).severity =
        (if scores.getD p.1 0 > -(1 / 10) then "medium" else "high") := rfl
    have hsc : (mkAnomaly rows names ri xs xi scores p.1).anomaly_score =
        scores.getD p.1 0 := rfl
    rw [hsev, hsc]
    by_cases hs : scores.getD p.1 0 > -(1 / 10)
    · left
      exact ⟨if_pos hs, hs⟩
    · right
      exact ⟨if_neg hs, le_of_not_lt hs⟩
  · simp [hp2] at hip

lemma process_empty_of_k0 (cfg : EngineConfig) (rows : List Row)
    (names : List String) (ri : List ℕ) (xs : List (List ScaledEntry))
    (xi : List (List ℚ)) (scores : List ℚ)
    (hk : kOf cfg.contamination xs.length = 0) :
    process_results cfg rows names ri xs xi scores = [] := by
  unfold process_results predictions flaggedIdx
  rw [hk, List.take_zero]
  apply List.filterMap_eq_nil_iff.2
  intro p hp
  have h1 : p.2 ∈ (List.range xs.length).map
      fun i => decide (i ∈ ([] : List ℕ)) := by
    have := snd_mem_of_mem_enumFrom _ 0 p hp
    exact this
  rcases List.mem_map.1 h1 with ⟨i, _, hi⟩
  have h2 : p.2 = false := by
    rw [← hi]
    simp
  rw [h2]
  simp

/-! Inversion lemmas for the pipeline. -/

lemma pipeline_body_ok {cfg : EngineConfig} {names : List String}
    {scoreFn : List (List ScaledEntry) → Except String (List ℚ)}
    {rows : List Row} {l : List Anomaly}
    (hb : pipeline_body cfg names scoreFn rows = .ok l) :
    ((extract_features names rows).1 = [] ∧ l = []) ∨
      ∃ xi scores,
        impute (extract_features names rows).1 = .ok xi ∧
        scoreFn (scale xi) = .ok scores ∧
        scores.length = (extract_features names rows).1.length ∧
        l = process_results cfg rows names (extract_features names rows).2
          (scale xi) xi scores := by
  unfold pipeline_body at hb
  split at hb
  · left
    refine ⟨List.isEmpty_iff.1 (by assumption), ?_⟩
    injection hb with h1
    exact h1.symm
  · split at hb
    · simp at hb
    · rename_i xi hxi
      split at hb
      · simp at hb
      · rename_i scores hsc
        split at hb
        · right
          injection hb with h1
          exact ⟨xi, scores, hxi, hsc, by assumption, h1.symm⟩
        · simp at hb

lemma detect_model_shape (cfg : EngineConfig) (names : List String)
    (scoreFn : List (List ScaledEntry) → Except String (List ℚ))
    (rows : List Row) :
    detect_model cfg names scoreFn rows = [] ∨
      ∃ l, pipeline_body cfg names scoreFn rows = .ok l ∧
        detect_model cfg names scoreFn rows = l := by
  unfold detect_model
  split
  · left
    rfl
  · cases hb : pipeline_body cfg names scoreFn rows with
    | ok l =>
      right
      exact ⟨l, rfl, rfl⟩
    | error e =>
      left
      rfl

/-! Helper lemma for the selection predicate. -/

lemma canonicalNames_nil {rows : List Row}
    (h : ∀ k, selectedFeature rows k = false) : canonicalNames rows = [] := by
  rw [List.eq_nil_iff_forall_not_mem]
  intro k hk
  rw [canonicalNames, List.mem_dedup, List.mem_flatMap] at hk
  rcases hk with ⟨row, hrow, hmem⟩
  rcases List.mem_filterMap.1 hmem with ⟨kv, hkv, hif⟩
  have hsel : selectedFeature rows k = true := by
    unfold selectedFeature
    rw [List.any_eq_true]
    refine ⟨row, hrow, ?_⟩
    rw [List.any_eq_true]
    refine ⟨kv, hkv, ?_⟩
    split at hif
    · rename_i hc
      injection hif with h1
      rw [Bool.and_eq_true] at hc
      rw [Bool.and_eq_true, Bool.and_eq_true]
      exact ⟨⟨by rw [h1]; exact decide_eq_true rfl, hc.1⟩, hc.2⟩
    · exact Option.noConfusion hif
  rw [h k] at hsel
  exact Bool.noConfusion hsel

/-! Claim theorems. -/

/-- C2: for every row flagged as an outlier, the emitted record's severity
is "high" exactly when the decision-function score is at most -0.1 and
"medium" exactly when it is greater than -0.1; no other severity occurs. -/
theorem severity_thresholds (cfg : EngineConfig) (names : List String)
    (scoreFn : List (List ScaledEntry) → Except String (List ℚ))
    (rows : List Row) (a : Anomaly)
    (h : a ∈ detect_model cfg names scoreFn rows) :
    (a.severity = "medium" ∧ -(1 / 10) < a.anomaly_score) ∨
      (a.severity = "high" ∧ a.anomaly_score ≤ -(1 / 10)) := by
  rcases detect_model_shape cfg names scoreFn rows with hd | ⟨l, hb, hd⟩
  · rw [hd] at h
    exact absurd h (List.not_mem_nil a)
  · rw [hd] at h
    rcases pipeline_body_ok hb with ⟨_, hl⟩ | ⟨xi, scores, _, _, _, hl⟩
    · rw [hl] at h
      exact absurd h (List.not_mem_nil a)
    · rw [hl] at h
      exact process_severity h

/-- C2 witness: the run on `rowsA` flags one row with score 0, and the
severity rule holds on that concrete record. -/
theorem severity_thresholds_witness :
    ((outA.headD anomaly0).severity = "medium" ∧
        -(1 / 10) < (outA.headD anomaly0).anomaly_score) ∨
      ((outA.headD anomaly0).severity = "high" ∧
        (outA.headD anomaly0).anomaly_score ≤ -(1 / 10)) :=
  severity_thresholds cfgS ["a"] constScore rowsA (outA.headD anomaly0)
    (by with_unfolding_all decide)

/-- C3 (amended): a flagged row whose decision-function score is exactly
-0.1 is labeled "high", not "medium": the source's comparison
`score > -0.1` makes the -0.1 boundary inclusive on the high side. -/
theorem boundary_score_high (cfg : EngineConfig) (names : List String)
    (scoreFn : List (List ScaledEntry) → Except String (List ℚ))
    (rows : List Row) (a : Anomaly)
    (h : a ∈ detect_model cfg names scoreFn rows)
    (hs : a.anomaly_score = -(1 / 10)) : a.severity = "high" := by
  rcases detect_model_shape cfg names scoreFn rows with hd | ⟨l, hb, hd⟩
  · rw [hd] at h
    exact absurd h (List.not_mem_nil a)
  · rw [hd] at h
    rcases pipeline_body_ok hb with ⟨_, hl⟩ | ⟨xi, scores, _, _, _, hl⟩
    · rw [hl] at h
      exact absurd h (List.not_mem_nil a)
    · rw [hl] at h
      rcases process_severity h with ⟨_, hlt⟩ | ⟨hhigh, _⟩
      · rw [hs] at hlt
        exact absurd hlt (lt_irrefl _)
      · exact hhigh

/-- C3 counterexample: a concrete run whose flagged row has score exactly
-0.1; the code labels it "high", not "medium" as the claim states. -/
theorem boundary_score_medium_cex :
    ((detect_model cfgS ["a"] boundaryScore rowsA).headD anomaly0).anomaly_score =
        -(1 / 10) ∧
      ((detect_model cfgS ["a"] boundaryScore rowsA).headD anomaly0).severity =
        "high" ∧
      ((detect_model cfgS ["a"] boundaryScore rowsA).headD anomaly0).severity ≠
        "medium" ∧
      (detect_model cfgS ["a"] boundaryScore rowsA).length = 1 := by
  with_unfolding_all decide

/-- C3 witness: the amended rule applied to the concrete boundary run. -/
theorem boundary_score_high_witness :
    ((detect_model cfgS ["a"] boundaryScore rowsA).headD anomaly0).severity =
      "high" :=
  boundary_score_high cfgS ["a"] boundaryScore rowsA
    ((detect_model cfgS ["a"] boundaryScore rowsA).headD anomaly0)
    (by with_unfolding_all decide) (by with_unfolding_all decide)

/-- C7: the engine never propagates an internal fault: whenever the
pipeline body (feature extraction, preprocessing, scoring, labeling)
fails, `detect_anomalies` returns the empty sequence, for every scoring
function and every input. -/
theorem fault_degrades_empty (cfg : EngineConfig) (names : List String)
    (scoreFn : List (List ScaledEntry) → Except String (List ℚ))
    (rows : List Row) (e : String)
    (h : pipeline_body cfg names scoreFn rows = .error e) :
    detect_model cfg names scoreFn rows = [] := by
  unfold detect_model
  split
  · rfl
  · rw [h]

/-- C7 witness: a run whose preprocessing stage faults on an `"inf"` cell
degrades to the empty result. -/
theorem fault_degrades_empty_witness :
    pipeline_body cfgS ["a"] constScore rowsInf =
        .error "Input contains infinity or a value too large" ∧
      detect_model cfgS ["a"] constScore rowsInf = [] :=
  ⟨by with_unfolding_all rfl, fault_degrades_empty cfgS ["a"] constScore rowsInf
    "Input contains infinity or a value too large" (by with_unfolding_all rfl)⟩

/-- C9: the anomaly records are returned in strictly ascending
`row_index` order, i.e. flagged rows keep their input order. -/
theorem output_sorted_by_row_index (cfg : EngineConfig) (names : List String)
    (scoreFn : List (List ScaledEntry) → Except String (List ℚ))
    (rows : List Row) :
    (detect_model cfg names scoreFn rows).Pairwise
      fun a b => a.row_index < b.row_index := by
  rcases detect_model_shape cfg names scoreFn rows with hd | ⟨l, hb, hd⟩
  · rw [hd]
    exact List.Pairwise.nil
  · rw [hd]
    rcases pipeline_body_ok hb with ⟨_, hl⟩ | ⟨xi, scores, hxi, _, _, hl⟩
    · rw [hl]
      exact List.Pairwise.nil
    · rw [hl]
      apply process_results_sorted
      · exact extract_features_sorted names rows
      · rw [scale_length, impute_length hxi, extract_features_len]

/-- C5: for every run that reaches the model stage without fault, the
number of anomaly records equals the spec's `round(contamination * n)`
count (with its below-one floor) over the matrix rows, and never exceeds
the number of matrix rows. -/
theorem contamination_count (cfg : EngineConfig) (names : List String)
    (scoreFn : List (List ScaledEntry) → Except String (List ℚ))
    (rows : List Row) (l : List Anomaly)
    (h1 : cfg.contamination ≤ 1)
    (hg : ¬(rows.isEmpty ∨ rows.length < cfg.min_samples))
    (hb : pipeline_body cfg names scoreFn rows = .ok l) :
    detect_model cfg names scoreFn rows = l ∧
      l.length = kOf cfg.contamination (extract_features names rows).1.length ∧
      l.length ≤ (extract_features names rows).1.length := by
  have hkey : l.length =
      kOf cfg.contamination (extract_features names rows).1.length := by
    rcases pipeline_body_ok hb with ⟨hnil, hl⟩ | ⟨xi, scores, hxi, _, _, hl⟩
    · rw [hl, hnil]
      simp [kOf_zero]
    · rw [hl, process_results_length]
      have hxl : (scale xi).length = (extract_features names rows).1.length := by
        rw [scale_length, impute_length hxi]
      rw [hxl]
      exact Nat.min_eq_left (kOf_le h1 _)
  refine ⟨?_, hkey, ?_⟩
  · unfold detect_model
    rw [if_neg hg, hb]
  · rw [hkey]
    exact kOf_le h1 _

/-- C5 witness: the `rowsA` run has a 2-row matrix, contamination 1/2,
and returns exactly `kOf (1/2) 2 = 1` record. -/
theorem contamination_count_witness :
    cfgS.contamination ≤ 1 ∧
      bodyA.length = kOf cfgS.contamination (extract_features ["a"] rowsA).1.length ∧
      bodyA.length ≤ (extract_features ["a"] rowsA).1.length :=
  ⟨by with_unfolding_all decide,
    (contamination_count cfgS ["a"] constScore rowsA bodyA
      (by with_unfolding_all decide) (by with_unfolding_all decide)
      (by with_unfolding_all rfl)).2.1,
    (contamination_count cfgS ["a"] constScore rowsA bodyA
      (by with_unfolding_all decide) (by with_unfolding_all decide)
      (by with_unfolding_all rfl)).2.2⟩

/-- C1 (amended): a run whose feature matrix has at most one row (which
covers the zero-usable-columns case) returns no anomalies for any
contamination below 1; a matrix with a single usable column and two or
more rows is scored normally and can produce output. -/
theorem small_matrix_empty (cfg : EngineConfig) (names : List String)
    (scoreFn : List (List ScaledEntry) → Except String (List ℚ))
    (rows : List Row)
    (h1 : cfg.contamination < 1)
    (h2 : (extract_features names rows).1.length ≤ 1) :
    detect_model cfg names scoreFn rows = [] := by
  rcases detect_model_shape cfg names scoreFn rows with hd | ⟨l, hb, hd⟩
  · exact hd
  · rw [hd]
    rcases pipeline_body_ok hb with ⟨_, hl⟩ | ⟨xi, scores, hxi, _, _, hl⟩
    · exact hl
    · rw [hl]
      apply process_empty_of_k0
      have hxl : (scale xi).length = (extract_features names rows).1.length := by
        rw [scale_length, impute_length hxi]
      rw [hxl]
      rcases Nat.le_one_iff_eq_zero_or_eq_one.1 h2 with h0 | h0
      · rw [h0]
        exact kOf_zero _
      · rw [h0]
        exact kOf_one_of_lt h1

/-- C1 witness: a gate-passing run in which only one row parses, so the
matrix has a single row; the output is empty. -/
theorem small_matrix_empty_witness :
    cfgS.contamination < 1 ∧ (extract_features ["a"] rowsB).1.length ≤ 1 ∧
      detect_model cfgS ["a"] constScore rowsB = [] :=
  ⟨by with_unfolding_all decide, by with_unfolding_all decide,
    small_matrix_empty cfgS ["a"] constScore rowsB
      (by with_unfolding_all decide) (by with_unfolding_all decide)⟩

/-- C1 counterexample: a run that passes the minimum-sample gate with a
feature set of exactly one column, yet returns one anomaly rather than
an empty result. -/
theorem one_column_nonempty_cex :
    canonicalNames rowsA = ["a"] ∧
      cfgS.min_samples ≤ rowsA.length ∧
      (detect_anomalies cfgS constScore rowsA).length = 1 := by
  with_unfolding_all decide

/-- C6: `detect_anomalies` returns the empty sequence, raising nothing,
whenever the input has fewer rows than `min_samples` or feature selection
marks no column at all. -/
theorem insufficient_data_noop (cfg : EngineConfig)
    (scoreFn : List (List ScaledEntry) → Except String (List ℚ))
    (rows : List Row)
    (h : rows.length < cfg.min_samples ∨ ∀ k, selectedFeature rows k = false) :
    detect_anomalies cfg scoreFn rows = [] := by
  unfold detect_anomalies detect_model
  rcases h with h | h
  · rw [if_pos (Or.inr h)]
  · have hn : canonicalNames rows = [] := canonicalNames_nil h
    split
    · rfl
    · have hb : pipeline_body cfg (canonicalNames rows) scoreFn rows = .ok [] := by
        unfold pipeline_body
        rw [hn]
        rfl
      rw [hb]

/-- C6 witness: one row against the default 20-row minimum. -/
theorem insufficient_data_noop_witness :
    rowsSmall.length < cfgD.min_samples ∧
      detect_anomalies cfgD constScore rowsSmall = [] :=
  ⟨by with_unfolding_all decide,
    insufficient_data_noop cfgD constScore rowsSmall
      (Or.inl (by with_unfolding_all decide))⟩

/-- C4: the output depends on the enumeration order of the selected
feature set: on rows whose two numeric columns hold equal values, the two
enumerations of the same selected set produce different records (the
attributed `key_feature` differs), so a fixed seed alone does not make
separate runs identical when the ambient set order changes. -/
theorem set_order_dependence :
    detect_model cfgS ["a", "b"] sumScore rowsAB ≠
        detect_model cfgS ["b", "a"] sumScore rowsAB ∧
      canonicalNames rowsAB = ["a", "b"] ∧
      List.Perm ["b", "a"] (canonicalNames rowsAB) := by
  refine ⟨by with_unfolding_all decide, by with_unfolding_all decide, ?_⟩
  have h : canonicalNames rowsAB = ["a", "b"] := by with_unfolding_all decide
  rw [h]
  exact List.Perm.swap "a" "b" []

/-- C8: a column is selected iff some row among the first
`min(len(rows), 50)` holds it with a numeric value under a non-reserved
(lower-cased) name; and selection only reads that sample prefix. -/
theorem feature_selection_iff (rows : List Row) (k : String) :
    (selectedFeature rows k = true ↔
      ∃ row ∈ rows.take (min rows.length 50), ∃ v, (k, v) ∈ row ∧
        is_numeric v = true ∧ k.toLower ∉ reservedNames) ∧
    selectedFeature rows k = selectedFeature (rows.take (min rows.length 50)) k := by
  constructor
  · unfold selectedFeature sampleRows
    rw [List.any_eq_true]
    constructor
    · rintro ⟨row, hrow, hany⟩
      rw [List.any_eq_true] at hany
      rcases hany with ⟨kv, hkv, hp⟩
      rw [Bool.and_eq_true, Bool.and_eq_true] at hp
      rcases hp with ⟨⟨hd1, hd2⟩, hd3⟩
      have hk : kv.1 = k := of_decide_eq_true hd1
      have hres : kv.1.toLower ∉ reservedNames := of_decide_eq_true hd3
      refine ⟨row, hrow, kv.2, ?_, hd2, ?_⟩
      · rw [← hk, Prod.mk.eta]
        exact hkv
      · rw [← hk]
        exact hres
    · rintro ⟨row, hrow, v, hv, hnum, hres⟩
      refine ⟨row, hrow, ?_⟩
      rw [List.any_eq_true]
      refine ⟨(k, v), hv, ?_⟩
      rw [Bool.and_eq_true, Bool.and_eq_true]
      exact ⟨⟨decide_eq_true rfl, hnum⟩, decide_eq_true hres⟩
  · have hs : sampleRows (rows.take (min rows.length 50)) = sampleRows rows := by
      unfold sampleRows
      rw [List.length_take, List.take_take]
      congr 1
      omega
    show (sampleRows rows).any _ = (sampleRows (rows.take (min rows.length 50))).any _
    rw [hs]

/-- C10: the coercer sends the strings "nan", "inf" and "infinity" to
float nan and infinity rather than to missing, so a row whose only
feature cell is "nan" counts as having data and is kept in the matrix as
an eligible row instead of being dropped. -/
theorem nan_inf_rows_eligible :
    to_numeric (some "nan") = some PyFloat.nan ∧
      to_numeric (some "inf") = some (PyFloat.inf false) ∧
      to_numeric (some "infinity") = some (PyFloat.inf false) ∧
      has_data ["v"] [("v", some "nan")] = true ∧
      (extract_features ["v"] rowsNan).2 = [0, 1] ∧
      rowsNan.length = 2 := by
  with_unfolding_all decide
